import Mathlib

/-!
Verification development for the tmux-widget status-line metrics probe
(`src/main.rs`).

The Rust program samples host telemetry (network counters, CPU busy
fractions, memory figures), formats the numbers with a fixed-width
unit-scaling formatter, and prints one line assembled from per-metric
renderer threads.

Shallow embedding conventions used throughout this file:

* Machine integers (`u64`, `usize`) are `Nat`; wrapping arithmetic is made
  explicit with `% 2 ^ 64`, and operations that can panic in Rust
  (division by zero, `usize` subtraction underflow with overflow checks,
  `Option::expect`) return `Option`/`none` for the panicking case.
* `f64` values are represented by the exact rational number the float
  denotes.  All floats manipulated by the formatter arise from `u64`
  counters: `s as f64` rounds to 53 significant bits (round to nearest,
  ties to even), which `toF64` models, and the subsequent divisions by
  1024.0 are exact in binary64 for the magnitudes involved, so plain
  rational division models them.  Rust's `format!("{:.p}", v)` renders the
  exact rational value of `v` rounded to `p` decimal places with ties to
  even, which `formatFixed` models; Rust's default `Display` for `f64`
  (used by `format!("{:2}", v)`) prints the shortest decimal string that
  round-trips through binary64, which `defaultDisplay` models by searching
  for the fewest fractional digits whose nearest-ties-to-even reading is
  the value again.
* Reads of operating-system counters (the `sysinfo` calls in
  `network_bytes`, `cpu`, `mem`) are the external telemetry provider; a
  `Telemetry` record carries the values those calls would return, and the
  renderers become functions of `Telemetry` and `Config`.  The f32
  averaging of per-core busy fractions in `cpu` happens on provider data
  before any formatting, so the average itself is a telemetry input.
* `main`'s thread fan-out/fan-in is modelled by the list of
  `(index, renderer output)` pairs; the `outputs.sort_by_key` call is
  modelled by a stable insertion sort on the first component, which agrees
  with Rust's stable `sort_by_key` on every input.
-/

set_option maxRecDepth 8000

namespace TmuxWidget

/-- Floor of a rational, computed directly on the numerator and denominator
so that the kernel can evaluate it (`Int./` is Euclidean division, which is
floor division for the positive denominator). -/
def ratFloor (q : ℚ) : ℤ := q.num / q.den

/-- Round to the nearest integer, ties to even.  This is the rounding Rust
uses both for `u64 as f64` and when formatting a float with a fixed number
of decimals. -/
def roundHalfEven (q : ℚ) : ℤ :=
  let n := ratFloor q
  let frac := q - (n : ℚ)
  if frac < 1/2 then n
  else if 1/2 < frac then n + 1
  else if n % 2 = 0 then n else n + 1

/-- Fuel-driven bit count: `bitsFuel f n` is the number of binary digits of
`n` (0 for 0) as long as `n < 2 ^ f`.  Fuel keeps the recursion structural
so the kernel can evaluate it. -/
def bitsFuel : Nat → Nat → Nat
  | 0, _ => 0
  | f + 1, n => if n = 0 then 0 else bitsFuel f (n / 2) + 1

/-- Number of binary digits of `n`; the fuel 400 covers every number this
development manipulates (decimal candidates up to `10 ^ 61 * 2 ^ 53`). -/
def natBits (n : Nat) : Nat := bitsFuel 400 n

/-- Binary exponent `e` with `2 ^ e ≤ q < 2 ^ (e + 1)` for positive `q`,
computed from the bit counts of numerator and denominator. -/
def ratExp2 (q : ℚ) : ℤ :=
  let d : ℤ := (natBits q.num.toNat : ℤ) - (natBits q.den : ℤ)
  if (2:ℚ) ^ d ≤ q then d else d - 1

/-- The binary64 value nearest to `q` (ties to even), for nonnegative `q`
in the normal range: the significand grid at `q`'s binade has spacing
`2 ^ (e - 52)`. -/
def nearestF64 (q : ℚ) : ℚ :=
  if q ≤ 0 then 0
  else
    let e := ratExp2 q
    let scale : ℚ := (2:ℚ) ^ (e - 52)
    (roundHalfEven (q / scale) : ℚ) * scale

/-- The exact value of `s as f64` for a `u64` counter `s`: exact below
`2 ^ 53`, rounded to the nearest representable (ties to even) above. -/
def toF64 (s : Nat) : ℚ := nearestF64 (s : ℚ)

/-- Fuel-driven most-significant-first decimal digits of a natural number. -/
def natDigitsAux : Nat → Nat → List Char
  | 0, _ => []
  | f + 1, n =>
    if n < 10 then [Nat.digitChar n]
    else natDigitsAux f (n / 10) ++ [Nat.digitChar (n % 10)]

/-- Decimal digits of `n`, most significant first (`"0"` for 0), as Rust's
integer formatting produces them. -/
def natDigits (n : Nat) : List Char := natDigitsAux (n + 1) n

/-- Exactly `p` decimal digits of `m < 10 ^ p`, zero padded on the left:
the fractional part of a fixed-precision rendering. -/
def fracDigits : Nat → Nat → List Char
  | 0, _ => []
  | p + 1, m => fracDigits p (m / 10) ++ [Nat.digitChar (m % 10)]

/-- Rust's `format!("{:.p}", v)` for a nonnegative float value `v`: the
exact value rounded to `p` decimals, ties to even; no decimal point when
`p = 0`, otherwise exactly `p` fractional digits. -/
def formatFixed (v : ℚ) (p : Nat) : List Char :=
  let n := (roundHalfEven (v * (10:ℚ) ^ p)).toNat
  if p = 0 then natDigits n
  else natDigits (n / 10 ^ p) ++ '.' :: fracDigits p (n % 10 ^ p)

/-- Rust's `str::trim_end_matches`: remove every trailing occurrence of
`c`. -/
def trimEndMatches (l : List Char) (c : Char) : List Char :=
  (l.reverse.dropWhile (fun x => x == c)).reverse

/-- `max_width_float` from `src/main.rs` (lines 50-73): render `v` at
`max_width` decimals, take the integer part (the text before the first
`'.'`, as `split('.')` produces it); if it leaves no room for a decimal
point plus one digit, fall back to the integer-only rendering; otherwise
re-render with the remaining width as precision and optionally strip
trailing zeros and a trailing dot. -/
def max_width_float (v : ℚ) (max_width : Nat) (remove_trail : Bool) : List Char :=
  let precision := max_width
  let value := formatFixed v precision
  let integer := value.takeWhile (fun x => x != '.')
  if integer.length + 1 ≥ max_width then
    formatFixed v 0
  else
    let value2 := formatFixed v (max_width - integer.length - 1)
    if remove_trail then
      trimEndMatches (trimEndMatches value2 '0') '.'
    else value2

/-- The unit suffix `pretty_size` selects for `s` bytes: the second
components of the match arms of `src/main.rs` lines 77-83. -/
def unitOf (s : Nat) : List Char :=
  if s < 1000 then ['B']
  else if s < 1000 * 1024 then ['K', 'B']
  else if s < 1000 * 1024 * 1024 then ['M', 'B']
  else if s < 1000 * 1024 * 1024 * 1024 then ['G', 'B']
  else ['T', 'B']

/-- The scaled float value `pretty_size` computes for `s` bytes: the first
components of the match arms of `src/main.rs` lines 77-83 (`s as f64`
divided by a power of 1024.0; those divisions are exact in binary64). -/
def scaledValue (s : Nat) : ℚ :=
  if s < 1000 then toF64 s
  else if s < 1000 * 1024 then toF64 s / 1024
  else if s < 1000 * 1024 * 1024 then toF64 s / 1024 / 1024
  else if s < 1000 * 1024 * 1024 * 1024 then toF64 s / 1024 / 1024 / 1024
  else toF64 s / 1024 / 1024 / 1024 / 1024

/-- Whether rendering `v` with `k` fractional digits (nearest, ties to
even) reads back as exactly `v` under binary64 nearest rounding. -/
def roundTripsAt (v : ℚ) (k : Nat) : Bool :=
  nearestF64 ((roundHalfEven (v * (10:ℚ) ^ k) : ℚ) / (10:ℚ) ^ k) = v

/-- The fewest fractional digits that round-trip (Rust's default `Display`
for floats prints the shortest such decimal).  Every value reaching it in
this program is `m / 2 ^ j` with `j ≤ 52`, whose exact expansion has at
most 52 fractional digits, so the bounded search always succeeds. -/
def pickK (v : ℚ) : Nat := ((List.range 61).find? (fun k => roundTripsAt v k)).getD 60

/-- Rust's default `Display` rendering of a nonnegative `f64` value:
shortest round-tripping decimal, in positional notation. -/
def defaultDisplay (v : ℚ) : List Char := formatFixed v (pickK v)

/-- `format!("{:w}", _)` padding for a numeric argument: right-aligned in a
field of at least `w` characters, space filled. -/
def format_min_width (w : Nat) (l : List Char) : List Char :=
  List.replicate (w - l.length) ' ' ++ l

/-- `pretty_size` from `src/main.rs` (lines 76-92).  The source computes
`(value, unit)` in one `match`; `scaledValue`/`unitOf` above are that match
split into its two components, with identical guards.  In the fixed-length
branch the source computes `max_width - 2` on `usize`, which panics
(overflow check) for `max_width < 2` before anything else happens;
the `none` result models that panic.  The non-fixed branch is
`format!("{:2}", value)`: default float `Display` at minimum field
width 2 (the `2` is a width, not a precision). -/
def pretty_size (s : Nat) (fix_length : Bool) (max_width : Nat) : Option String :=
  let value := scaledValue s
  let unit := unitOf s
  if fix_length then
    if max_width < 2 then none
    else some (String.mk (max_width_float value (max_width - 2) true ++ unit))
  else
    some (String.mk (format_min_width 2 (defaultDisplay value) ++ unit))

/-- `u64::wrapping_sub`: subtraction modulo `2 ^ 64`. -/
def wrapping_sub (a b : Nat) : Nat :=
  (a % 2 ^ 64 + (2 ^ 64 - b % 2 ^ 64)) % 2 ^ 64

/-- Rust integer division, which panics when the divisor is zero. -/
def checked_div (a b : Nat) : Option Nat :=
  if b = 0 then none else some (a / b)

/-- The shared configuration (`Config` in `src/main.rs`, lines 135-140);
`interval` holds `Duration::as_secs`, the only use of the duration. -/
structure Config where
  with_icons : Bool
  interval : Nat
  fix_length : Bool
deriving DecidableEq

/-- `impl Default for Config` (lines 142-150). -/
def Config.default : Config := ⟨false, 1, true⟩

/-- The values the external telemetry provider (the `sysinfo` crate)
returns during one invocation: the two network snapshots taken by
`network_bandwidth` (sums over non-filtered interfaces of total sent and
received bytes), the f32 per-core busy-fraction average the `cpu` renderer
computes from its post-sleep refresh, and the four memory figures (in KiB,
as `sysinfo` reports them) read by `mem`. -/
structure Telemetry where
  first_up : Nat
  first_down : Nat
  second_up : Nat
  second_down : Nat
  cpu_usage_avg : ℚ
  total_memory : Nat
  used_memory : Nat
  total_swap : Nat
  used_swap : Nat

/-- `format!("{:>w$}", s)`: right-align a string in a field of at least `w`
characters. -/
def padLeftWidth (w : Nat) (s : String) : String :=
  String.mk (List.replicate (w - s.data.length) ' ' ++ s.data)

/-- `network_bandwidth` from `src/main.rs` (lines 31-47), with the two
`network_bytes()` snapshot reads supplied by the telemetry record.  The
per-direction deltas use `wrapping_sub`; the division by
`interval.as_secs()` panics (`none`) when the interval is zero. -/
def network_bandwidth (t : Telemetry) (cfg : Config) : Option String := do
  let seconds := cfg.interval
  let up_bandwidth ← checked_div (wrapping_sub t.second_up t.first_up) seconds
  let down_bandwidth ← checked_div (wrapping_sub t.second_down t.first_down) seconds
  let up_name := if cfg.with_icons then " " else "UP: "
  let done_name := if cfg.with_icons then " " else "DOWN: "
  let width := 6
  let up_str ← pretty_size up_bandwidth cfg.fix_length width
  let down_str ← pretty_size down_bandwidth cfg.fix_length width
  pure (up_name ++ padLeftWidth width up_str ++ "/s " ++
        done_name ++ padLeftWidth width down_str ++ "/s")

/-- `cpu` from `src/main.rs` (lines 118-133): after the interval sleep and
refresh, the f32 average of the per-core busy fractions (a telemetry
input here) is formatted through `max_width_float` with width 4 and
`remove_trail = false`, right-aligned in 4 columns. -/
def cpu (t : Telemetry) (cfg : Config) : Option String :=
  let cpu_usage_avg := t.cpu_usage_avg
  let cpu_show := if cfg.with_icons then " " else "CPU: "
  some (cpu_show ++ padLeftWidth 4 (String.mk (max_width_float cpu_usage_avg 4 false)))

/-- `mem` from `src/main.rs` (lines 94-116): the four KiB figures scaled to
bytes and formatted with `pretty_size` at width 6 (the used figures also
right-padded to 6 columns). -/
def mem (t : Telemetry) (cfg : Config) : Option String := do
  let total_mem := t.total_memory * 1024
  let used_mem := t.used_memory * 1024
  let total_swap := t.total_swap * 1024
  let used_swap := t.used_swap * 1024
  let memory_show := if cfg.with_icons then " " else "MEM: "
  let swap_show := if cfg.with_icons then "易" else "SWP: "
  let width := 6
  let used_mem_str ← pretty_size used_mem cfg.fix_length width
  let total_mem_str ← pretty_size total_mem cfg.fix_length width
  let used_swap_str ← pretty_size used_swap cfg.fix_length width
  let total_swap_str ← pretty_size total_swap cfg.fix_length width
  pure (memory_show ++ padLeftWidth width used_mem_str ++ "/" ++ total_mem_str ++ " " ++
        swap_show ++ padLeftWidth width used_swap_str ++ "/" ++ total_swap_str)

/-- The type of the function pointers `main` collects
(`Vec<fn(&Config) -> String>`), with the ambient telemetry made an explicit
argument and panics visible as `none`. -/
abbrev Op := Telemetry → Config → Option String

/-- Accumulate decimal digits left to right, rejecting any non-digit
character, as `str::parse::<u64>` does. -/
def digitsToNat : List Char → Nat → Option Nat
  | [], acc => some acc
  | c :: cs, acc =>
    if c.isDigit then digitsToNat cs (acc * 10 + (c.toNat - 48)) else none

/-- `str::parse::<u64>`: an optional leading `+`, then at least one digit,
value below `2 ^ 64`. -/
def parse_u64 (s : String) : Option Nat :=
  let cs := if s.data.headD ' ' = '+' then s.data.tail else s.data
  if cs.isEmpty then none
  else
    match digitsToNat cs 0 with
    | none => none
    | some n => if n < 2 ^ 64 then some n else none

/-- The argument loop of `main` (`src/main.rs` lines 161-182): metric flags
push their renderer onto `ops` in command-line order, the three option
flags update the configuration, `--interval` consumes and parses the next
argument (missing value or parse failure is an `expect` panic, `none`),
and an unknown option exits non-zero (`none`). -/
def parse_args : List String → Config → List Op → Option (Config × List Op)
  | [], cfg, ops => some (cfg, ops)
  | "--net" :: rest, cfg, ops => parse_args rest cfg (ops ++ [network_bandwidth])
  | "--cpu" :: rest, cfg, ops => parse_args rest cfg (ops ++ [cpu])
  | "--mem" :: rest, cfg, ops => parse_args rest cfg (ops ++ [mem])
  | "--with-icons" :: rest, cfg, ops =>
    parse_args rest ⟨true, cfg.interval, cfg.fix_length⟩ ops
  | "--no-fix-length" :: rest, cfg, ops =>
    parse_args rest ⟨cfg.with_icons, cfg.interval, false⟩ ops
  | ["--interval"], _, _ => none
  | "--interval" :: v :: rest2, cfg, ops =>
    match parse_u64 v with
    | none => none
    | some n => parse_args rest2 ⟨cfg.with_icons, n, cfg.fix_length⟩ ops
  | _ :: _, _, _ => none

/-- The `t.join().unwrap()` loop: collect every renderer result in spawn
order; a panicked renderer propagates (`none`). -/
def sequenceOptions : List (Option String) → Option (List String)
  | [] => some []
  | none :: _ => none
  | some s :: rest => (sequenceOptions rest).map (fun l => s :: l)

/-- `outputs.sort_by_key(|(i, _)| *i)`: Rust's stable sort, modelled by the
stable insertion sort on the index component (stable sorts agree on every
input). -/
def sort_by_key (l : List (Nat × String)) : List (Nat × String) :=
  l.insertionSort (fun a b => a.1 ≤ b.1)

/-- `main` from `src/main.rs` (lines 152-197) after the `IS_SUPPORTED`
check, as a function from the telemetry values and the argument list to
the lines printed on standard output: parse the arguments, run every
selected renderer on a copy of the configuration, join the `(index, text)`
pairs in spawn order, sort by index, and print the fragments joined by
single spaces as one line.  `none` models an abnormal exit (unknown flag,
`expect` failure, or a propagated renderer panic). -/
def main_run (t : Telemetry) (args : List String) : Option (List String) := do
  let (cfg, ops) ← parse_args args Config.default []
  let texts ← sequenceOptions (ops.map (fun op => op t cfg))
  let outputs := texts.enum
  let sorted := sort_by_key outputs
  pure [String.intercalate " " (sorted.map Prod.snd)]

/-- The three metric flags, used to quantify over command lines that
request a subset of metrics in some order. -/
inductive MetricFlag
  | net
  | cpu
  | mem
deriving DecidableEq

/-- The command-line spelling of a metric flag. -/
def flag_arg : MetricFlag → String
  | .net => "--net"
  | .cpu => "--cpu"
  | .mem => "--mem"

/-- The renderer `main` pushes for a metric flag. -/
def flag_op : MetricFlag → Op
  | .net => network_bandwidth
  | .cpu => cpu
  | .mem => mem

/-- The number of digits printed after the decimal point (0 when there is
no decimal point). -/
def decimalsAfterPoint (l : List Char) : Nat :=
  if '.' ∈ l then (l.reverse.takeWhile (fun c => c != '.')).length else 0

/-- A concrete telemetry valuation (all counters zero, one idle CPU) used
to instantiate theorems at concrete inputs. -/
def exampleTelemetry : Telemetry := ⟨0, 0, 0, 0, 0, 0, 0, 0, 0⟩

/-- A telemetry valuation whose per-core CPU busy-fraction average is
exactly 50. -/
def exampleTelemetryCpu50 : Telemetry := ⟨0, 0, 0, 0, 50, 0, 0, 0, 0⟩

/-! ### Helper lemmas: rounding -/

theorem ratFloor_eq_floor (q : ℚ) : ratFloor q = ⌊q⌋ := (Rat.floor_def).symm

theorem roundHalfEven_le (q : ℚ) : (roundHalfEven q : ℚ) ≤ q + 1/2 := by
  have h0 : (⌊q⌋ : ℚ) ≤ q := Int.floor_le q
  simp only [roundHalfEven, ratFloor_eq_floor]
  split_ifs <;> push_cast <;> linarith

theorem le_roundHalfEven (q : ℚ) : q - 1/2 ≤ (roundHalfEven q : ℚ) := by
  have h1 : q - 1 < (⌊q⌋ : ℚ) := Int.sub_one_lt_floor q
  simp only [roundHalfEven, ratFloor_eq_floor]
  split_ifs <;> push_cast <;> linarith

theorem roundHalfEven_nonneg {q : ℚ} (h : 0 ≤ q) : 0 ≤ roundHalfEven q := by
  have h0 : 0 ≤ ⌊q⌋ := Int.floor_nonneg.2 h
  simp only [roundHalfEven, ratFloor_eq_floor]
  split_ifs <;> omega

theorem roundHalfEven_toNat_cast {q : ℚ} (h : 0 ≤ q) :
    (((roundHalfEven q).toNat : Nat) : ℚ) = (roundHalfEven q : ℚ) := by
  rw [← Int.cast_natCast, Int.toNat_of_nonneg (roundHalfEven_nonneg h)]

/-! ### Helper lemmas: decimal digit strings -/

theorem natDigitsAux_congr : ∀ (n f g : Nat), n < f → n < g →
    natDigitsAux f n = natDigitsAux g n := by
  intro n
  induction n using Nat.strong_induction_on with
  | _ n ih =>
    intro f g hf hg
    match f, g with
    | f + 1, g + 1 =>
      simp only [natDigitsAux]
      by_cases h : n < 10
      · simp [h]
      · have hdiv : n / 10 < n := Nat.div_lt_self (by omega) (by omega)
        simp only [h, if_false]
        rw [ih (n / 10) hdiv (f := f) (g := g) (by omega) (by omega)]

theorem natDigits_eq (n : Nat) : natDigits n =
    if n < 10 then [Nat.digitChar n]
    else natDigits (n / 10) ++ [Nat.digitChar (n % 10)] := by
  by_cases h : n < 10
  · rw [if_pos h]
    simp [natDigits, natDigitsAux, h]
  · rw [if_neg h]
    have hdiv : n / 10 < n := Nat.div_lt_self (by omega) (by omega)
    show natDigitsAux (n + 1) n = _
    simp only [natDigitsAux, h, if_false]
    rw [natDigitsAux_congr (n / 10) n (n / 10 + 1) hdiv (by omega)]
    rfl

theorem natDigits_length_pos (n : Nat) : 1 ≤ (natDigits n).length := by
  rw [natDigits_eq]
  split_ifs <;> simp

theorem natDigits_ne_nil (n : Nat) : natDigits n ≠ [] := by
  intro h
  have := natDigits_length_pos n
  rw [h] at this
  simp at this

theorem natDigits_length_le_of_lt_pow :
    ∀ (L : Nat), 1 ≤ L → ∀ n : Nat, n < 10 ^ L → (natDigits n).length ≤ L := by
  intro L
  induction L with
  | zero => omega
  | succ L ih =>
    intro _ n hn
    rw [natDigits_eq]
    by_cases h : n < 10
    · simp [h]
    · have hL : 1 ≤ L := by
        by_contra hc
        have : L = 0 := by omega
        subst this
        simp [pow_succ] at hn
        omega
      have hdiv : n / 10 < 10 ^ L := by
        rw [Nat.div_lt_iff_lt_mul (by omega)]
        calc n < 10 ^ (L + 1) := hn
        _ = 10 ^ L * 10 := by ring
      have := ih hL (n / 10) hdiv
      simp only [h, if_false, List.length_append, List.length_cons, List.length_nil]
      omega

theorem lt_pow_natDigits_length : ∀ n : Nat, n < 10 ^ (natDigits n).length := by
  intro n
  induction n using Nat.strong_induction_on with
  | _ n ih =>
    rw [natDigits_eq]
    by_cases h : n < 10
    · simp [h]
    · have hdiv : n / 10 < n := Nat.div_lt_self (by omega) (by omega)
      have hrec := ih (n / 10) hdiv
      have h1 : n < (n / 10 + 1) * 10 := by omega
      have h2 : (n / 10 + 1) * 10 ≤ 10 ^ (natDigits (n / 10)).length * 10 :=
        Nat.mul_le_mul_right 10 hrec
      have h3 : 10 ^ (natDigits (n / 10)).length * 10 =
          10 ^ ((natDigits (n / 10)).length + 1) := (pow_succ 10 _).symm
      simp only [h, if_false, List.length_append, List.length_cons, List.length_nil,
        Nat.zero_add]
      calc n < (n / 10 + 1) * 10 := h1
      _ ≤ 10 ^ (natDigits (n / 10)).length * 10 := h2
      _ = 10 ^ ((natDigits (n / 10)).length + 1) := h3

theorem digitChar_ne_dot : ∀ d : Nat, d < 10 → Nat.digitChar d ≠ '.' := by decide

theorem digitChar_eq_zero_iff : ∀ d : Nat, d < 10 → (Nat.digitChar d = '0' ↔ d = 0) := by
  decide

theorem natDigits_mem_ne_dot : ∀ (n : Nat) (c : Char), c ∈ natDigits n → c ≠ '.' := by
  intro n
  induction n using Nat.strong_induction_on with
  | _ n ih =>
    intro c hc
    rw [natDigits_eq] at hc
    by_cases h : n < 10
    · simp [h] at hc
      subst hc
      exact digitChar_ne_dot n h
    · have hdiv : n / 10 < n := Nat.div_lt_self (by omega) (by omega)
      simp [h] at hc
      rcases hc with hc | hc
      · exact ih (n / 10) hdiv c hc
      · subst hc
        exact digitChar_ne_dot (n % 10) (Nat.mod_lt n (by omega))

theorem fracDigits_length : ∀ (p m : Nat), (fracDigits p m).length = p := by
  intro p
  induction p with
  | zero => intro m; simp [fracDigits]
  | succ p ih => intro m; simp [fracDigits, ih]

theorem fracDigits_mem_ne_dot : ∀ (p m : Nat) (c : Char), c ∈ fracDigits p m → c ≠ '.' := by
  intro p
  induction p with
  | zero => intro m c hc; simp [fracDigits] at hc
  | succ p ih =>
    intro m c hc
    simp [fracDigits] at hc
    rcases hc with hc | hc
    · exact ih (m / 10) c hc
    · subst hc
      exact digitChar_ne_dot (m % 10) (Nat.mod_lt m (by omega))

theorem fracDigits_zero_eq_replicate : ∀ p : Nat, fracDigits p 0 = List.replicate p '0' := by
  intro p
  induction p with
  | zero => simp [fracDigits]
  | succ p ih =>
    show fracDigits p (0 / 10) ++ [Nat.digitChar (0 % 10)] = _
    rw [Nat.zero_div, ih, List.replicate_succ']
    rfl

/-! ### Helper lemmas: takeWhile / dropWhile / trimming -/

theorem takeWhile_all_append (p : Char → Bool) :
    ∀ (X : List Char), (∀ c ∈ X, p c = true) → ∀ (y : Char), p y = false →
      ∀ (Y : List Char), (X ++ y :: Y).takeWhile p = X := by
  intro X
  induction X with
  | nil =>
    intro _ y hy Y
    simp [List.takeWhile_cons, hy]
  | cons a X ih =>
    intro hX y hy Y
    have ha : p a = true := hX a (by simp)
    simp only [List.cons_append, List.takeWhile_cons, ha, if_true]
    rw [ih (fun c hc => hX c (by simp [hc])) y hy Y]

theorem dropWhile_all_append (p : Char → Bool) :
    ∀ (X : List Char), (∀ c ∈ X, p c = true) → ∀ (y : Char), p y = false →
      ∀ (Y : List Char), (X ++ y :: Y).dropWhile p = y :: Y := by
  intro X
  induction X with
  | nil =>
    intro _ y hy Y
    simp [List.dropWhile_cons, hy]
  | cons a X ih =>
    intro hX y hy Y
    have ha : p a = true := hX a (by simp)
    simp only [List.cons_append, List.dropWhile_cons, ha, if_true]
    exact ih (fun c hc => hX c (by simp [hc])) y hy Y

theorem dropWhile_cons_false (p : Char → Bool) (a : Char) (l : List Char)
    (ha : p a = false) : (a :: l).dropWhile p = a :: l := by
  simp [List.dropWhile_cons, ha]

theorem mem_trimEndMatches {l : List Char} {c x : Char}
    (h : x ∈ trimEndMatches l c) : x ∈ l := by
  unfold trimEndMatches at h
  rw [List.mem_reverse] at h
  have := (List.dropWhile_sublist (l := l.reverse) (fun y => y == c)).subset h
  rwa [List.mem_reverse] at this

theorem trimEndMatches_length_le (l : List Char) (c : Char) :
    (trimEndMatches l c).length ≤ l.length := by
  unfold trimEndMatches
  rw [List.length_reverse]
  calc (l.reverse.dropWhile (fun y => y == c)).length
      ≤ l.reverse.length := (List.dropWhile_sublist _).length_le
  _ = l.length := List.length_reverse l

theorem dropWhile_append_left_nil {α : Type} (p : α → Bool) :
    ∀ (X Y : List α), X.dropWhile p = [] → (X ++ Y).dropWhile p = Y.dropWhile p := by
  intro X
  induction X with
  | nil => intro Y _; rfl
  | cons a X ih =>
    intro Y h
    rw [List.dropWhile_cons] at h
    by_cases ha : p a = true
    · simp only [ha, if_true] at h
      simp only [List.cons_append, List.dropWhile_cons, ha, if_true]
      exact ih Y h
    · simp [ha] at h

theorem dropWhile_append_left_ne_nil {α : Type} (p : α → Bool) :
    ∀ (X Y : List α), X.dropWhile p ≠ [] → (X ++ Y).dropWhile p = X.dropWhile p ++ Y := by
  intro X
  induction X with
  | nil => intro Y h; simp at h
  | cons a X ih =>
    intro Y h
    rw [List.dropWhile_cons] at h
    by_cases ha : p a = true
    · simp only [ha, if_true] at h
      simp only [List.cons_append, List.dropWhile_cons, ha, if_true]
      exact ih Y h
    · simp only [Bool.not_eq_true] at ha
      simp [List.dropWhile_cons, ha]

theorem dropWhile_of_all_false {α : Type} (p : α → Bool) :
    ∀ (l : List α), (∀ c ∈ l, p c = false) → l.dropWhile p = l := by
  intro l
  induction l with
  | nil => intro _; rfl
  | cons a l _ =>
    intro h
    have := h a (by simp)
    simp [List.dropWhile_cons, this]

theorem dropWhile_of_all_true {α : Type} (p : α → Bool) :
    ∀ (l : List α), (∀ c ∈ l, p c = true) → l.dropWhile p = [] := by
  intro l
  induction l with
  | nil => intro _; rfl
  | cons a l ih =>
    intro h
    have ha := h a (by simp)
    simp only [List.dropWhile_cons, ha, if_true]
    exact ih (fun c hc => h c (by simp [hc]))

/-! ### Helper lemmas: formatFixed structure -/

theorem formatFixed_zero (v : ℚ) : formatFixed v 0 = natDigits (roundHalfEven v).toNat := by
  simp [formatFixed]

theorem formatFixed_pos (v : ℚ) (p : Nat) (hp : p ≠ 0) :
    formatFixed v p =
      natDigits ((roundHalfEven (v * (10:ℚ) ^ p)).toNat / 10 ^ p) ++
        '.' :: fracDigits p ((roundHalfEven (v * (10:ℚ) ^ p)).toNat % 10 ^ p) := by
  simp [formatFixed, hp]

theorem takeWhile_formatFixed_pos (v : ℚ) (p : Nat) (hp : p ≠ 0) :
    (formatFixed v p).takeWhile (fun x => x != '.') =
      natDigits ((roundHalfEven (v * (10:ℚ) ^ p)).toNat / 10 ^ p) := by
  rw [formatFixed_pos v p hp]
  apply takeWhile_all_append
  · intro c hc
    have := natDigits_mem_ne_dot _ c hc
    simpa using this
  · simp

/-- Core magnitude transfer: if rounding `v` at `m` decimals has an integer
part below `10 ^ L`, then rounding at any fewer decimals `p < m` yields at
most `10 ^ (L + p)` (the promoted-to-power case included). -/
theorem roundHalfEven_scaled_bound (v : ℚ) (hv : 0 ≤ v) (m p L : Nat)
    (hpm : p < m)
    (hdiv : (roundHalfEven (v * (10:ℚ) ^ m)).toNat / 10 ^ m < 10 ^ L) :
    (roundHalfEven (v * (10:ℚ) ^ p)).toNat ≤ 10 ^ (L + p) := by
  set N1 := (roundHalfEven (v * (10:ℚ) ^ m)).toNat with hN1def
  set N2 := (roundHalfEven (v * (10:ℚ) ^ p)).toNat with hN2def
  have hm0 : (0:ℚ) ≤ v * (10:ℚ) ^ m := by positivity
  have hp0 : (0:ℚ) ≤ v * (10:ℚ) ^ p := by positivity
  have hN1c : ((N1 : Nat) : ℚ) = (roundHalfEven (v * (10:ℚ) ^ m) : ℚ) :=
    roundHalfEven_toNat_cast hm0
  have hN2c : ((N2 : Nat) : ℚ) = (roundHalfEven (v * (10:ℚ) ^ p) : ℚ) :=
    roundHalfEven_toNat_cast hp0
  -- integer part bound transferred to N1
  have hN1nat : N1 + 1 ≤ 10 ^ (L + m) := by
    have := (Nat.div_lt_iff_lt_mul (k := 10 ^ m) (by positivity)).1 hdiv
    calc N1 + 1 ≤ 10 ^ L * 10 ^ m := this
    _ = 10 ^ (L + m) := (pow_add 10 L m).symm
  have h1q : (N1 : ℚ) + 1 ≤ (10:ℚ) ^ (L + m) := by exact_mod_cast hN1nat
  -- two-sided rounding bounds
  have h2 : v * (10:ℚ) ^ m ≤ (N1 : ℚ) + 1/2 := by
    rw [hN1c]
    linarith [le_roundHalfEven (v * (10:ℚ) ^ m)]
  have h3 : (N2 : ℚ) ≤ v * (10:ℚ) ^ p + 1/2 := by
    rw [hN2c]
    exact roundHalfEven_le (v * (10:ℚ) ^ p)
  -- combine, scaling by D = 10 ^ (m - p)
  set D : ℚ := (10:ℚ) ^ (m - p) with hDdef
  have hDpos : (0:ℚ) < D := by positivity
  have e1 : v * (10:ℚ) ^ p * D = v * (10:ℚ) ^ m := by
    rw [hDdef, mul_assoc, ← pow_add]
    congr 2
    omega
  have e2 : (10:ℚ) ^ (L + m) = (10:ℚ) ^ (L + p) * D := by
    rw [hDdef, ← pow_add]
    congr 1
    omega
  have hD1 : (1:ℚ) ≤ D := by
    rw [hDdef]
    exact one_le_pow₀ (by norm_num)
  have hmul : (N2 : ℚ) * D ≤ (v * (10:ℚ) ^ p + 1/2) * D :=
    mul_le_mul_of_nonneg_right h3 (le_of_lt hDpos)
  have hexp : (v * (10:ℚ) ^ p + 1/2) * D = v * (10:ℚ) ^ p * D + D/2 := by ring
  have hfinal : (N2 : ℚ) * D < ((10:ℚ) ^ (L + p) + 1) * D := by
    have : (N2 : ℚ) * D ≤ (10:ℚ) ^ (L + p) * D + D/2 - 1/2 := by
      rw [hexp] at hmul
      rw [e1] at hmul
      linarith [h2, h1q, e2.symm.le, e2.symm.ge]
    nlinarith [hDpos]
  have hlt : (N2 : ℚ) < (10:ℚ) ^ (L + p) + 1 :=
    lt_of_mul_lt_mul_right hfinal (le_of_lt hDpos)
  have : (N2 : ℚ) < ((10 ^ (L + p) + 1 : Nat) : ℚ) := by push_cast; exact hlt
  have hnat : N2 < 10 ^ (L + p) + 1 := by exact_mod_cast this
  omega

/-- Width behaviour of the trimming width-fitter: the rendered numeric
string never exceeds `max_width` characters except through the
integer-only fallback, whose length is that of the value rounded to an
integer.  (In the fractional path the bound is strict: at most
`max_width` even after a rounding carry, thanks to the trailing-zero
trim.) -/
theorem max_width_float_true_length (v : ℚ) (hv : 0 ≤ v) (m : Nat) :
    (max_width_float v m true).length ≤ max m (formatFixed v 0).length := by
  by_cases hm01 : m < 2
  · -- width 0 or 1: the integer fallback always fires
    simp only [max_width_float]
    rw [if_pos (le_trans (by omega : m ≤ 1) (Nat.succ_le_succ (Nat.zero_le _)))]
    exact le_max_right _ _
  · have hmne : m ≠ 0 := by omega
    simp only [max_width_float]
    rw [takeWhile_formatFixed_pos v m hmne]
    set N1 := (roundHalfEven (v * (10:ℚ) ^ m)).toNat with hN1def
    set i1 := N1 / 10 ^ m with hi1def
    set L := (natDigits i1).length with hLdef
    by_cases hcase : L + 1 ≥ m
    · rw [if_pos hcase]
      exact le_max_right _ _
    · rw [if_neg hcase]
      have hL1 : 1 ≤ L := natDigits_length_pos i1
      have hLm : L + 1 < m := by omega
      set p := m - L - 1 with hpdef
      have hpne : p ≠ 0 := by omega
      have hpm : p < m := by omega
      have hiL : i1 < 10 ^ L := lt_pow_natDigits_length i1
      set N2 := (roundHalfEven (v * (10:ℚ) ^ p)).toNat with hN2def
      have hN2 : N2 ≤ 10 ^ (L + p) := roundHalfEven_scaled_bound v hv m p L hpm hiL
      rw [if_pos trivial, formatFixed_pos v p hpne]
      set i2 := N2 / 10 ^ p with hi2def
      set r2 := N2 % 10 ^ p with hr2def
      set A := natDigits i2 with hAdef
      set B := fracDigits p r2 with hBdef
      have hrev : (A ++ '.' :: B).reverse = B.reverse ++ '.' :: A.reverse := by
        rw [List.reverse_append, List.reverse_cons, List.append_assoc,
          List.singleton_append]
      have hAnotdot : ∀ c ∈ A.reverse, (c == '.') = false := by
        intro c hc
        rw [List.mem_reverse] at hc
        simpa using natDigits_mem_ne_dot i2 c hc
      have hAne : A.reverse ≠ [] := by
        simpa using natDigits_ne_nil i2
      by_cases hz : B.reverse.dropWhile (fun x => x == '0') = []
      · -- every fractional digit was 0: the trim collapses to the integer part
        have t1 : trimEndMatches (A ++ '.' :: B) '0' = A ++ ['.'] := by
          unfold trimEndMatches
          rw [hrev, dropWhile_append_left_nil _ _ _ hz,
            dropWhile_cons_false _ _ _ (by rfl), List.reverse_cons, List.reverse_reverse]
        have t2 : trimEndMatches (A ++ ['.']) '.' = A := by
          unfold trimEndMatches
          rw [show (A ++ ['.']).reverse = '.' :: A.reverse by simp, List.dropWhile_cons]
          simp only [beq_self_eq_true, if_true]
          rw [dropWhile_of_all_false _ _ hAnotdot, List.reverse_reverse]
        rw [t1, t2]
        have hi2le : i2 ≤ 10 ^ L := by
          rw [hi2def]
          calc N2 / 10 ^ p ≤ 10 ^ (L + p) / 10 ^ p := Nat.div_le_div_right hN2
          _ = 10 ^ L := by
                rw [pow_add, Nat.mul_div_cancel _ (by positivity)]
        have hi2lt : i2 < 10 ^ (L + 1) := by
          have : (10:ℕ) ^ L < 10 ^ (L + 1) := by
            have := Nat.pow_lt_pow_right (a := 10) (by omega) (Nat.lt_succ_self L)
            simpa using this
          omega
        have : A.length ≤ L + 1 :=
          natDigits_length_le_of_lt_pow (L + 1) (by omega) i2 hi2lt
        have : A.length ≤ m := by omega
        exact le_trans this (le_max_left _ _)
      · -- a nonzero fractional digit survives the trim
        set C := (B.reverse.dropWhile (fun x => x == '0')).reverse with hCdef
        have hCB : ∀ c ∈ C, c ∈ B := by
          intro c hc
          exact mem_trimEndMatches (l := B) (c := '0') hc
        have hCnotdot : ∀ c ∈ C.reverse, (c == '.') = false := by
          intro c hc
          rw [List.mem_reverse] at hc
          simpa using fracDigits_mem_ne_dot p r2 c (hCB c hc)
        have hCrevne : C.reverse ≠ [] := by
          rw [hCdef, List.reverse_reverse]
          exact hz
        have t1 : trimEndMatches (A ++ '.' :: B) '0' = A ++ '.' :: C := by
          unfold trimEndMatches
          rw [hrev, dropWhile_append_left_ne_nil _ _ _ hz, List.reverse_append,
            List.reverse_cons, List.reverse_reverse, List.append_assoc,
            List.singleton_append]
        have t2 : trimEndMatches (A ++ '.' :: C) '.' = A ++ '.' :: C := by
          unfold trimEndMatches
          rw [show (A ++ '.' :: C).reverse = C.reverse ++ '.' :: A.reverse by
            rw [List.reverse_append, List.reverse_cons, List.append_assoc,
              List.singleton_append]]
          rw [dropWhile_append_left_ne_nil _ _ _ (by
            rw [dropWhile_of_all_false _ _ hCnotdot]
            exact hCrevne)]
          rw [dropWhile_of_all_false _ _ hCnotdot, List.reverse_append,
            List.reverse_cons, List.reverse_reverse, List.append_assoc,
            List.singleton_append, List.reverse_reverse]
        rw [t1, t2]
        have hr2ne : r2 ≠ 0 := by
          intro h0
          apply hz
          have hB0 : B = List.replicate p '0' := by
            rw [hBdef, h0]
            exact fracDigits_zero_eq_replicate p
          rw [hB0, List.reverse_replicate]
          exact dropWhile_of_all_true _ _ (by
            intro c hc
            rw [List.eq_of_mem_replicate hc]
            rfl)
        have hN2strict : N2 < 10 ^ (L + p) := by
          rcases Nat.lt_or_ge N2 (10 ^ (L + p)) with h | h
          · exact h
          · exfalso
            have heq : N2 = 10 ^ (L + p) := by omega
            apply hr2ne
            rw [hr2def, heq, pow_add, Nat.mul_mod_left]
        have hi2lt : i2 < 10 ^ L := by
          rw [hi2def, Nat.div_lt_iff_lt_mul (by positivity)]
          calc N2 < 10 ^ (L + p) := hN2strict
          _ = 10 ^ L * 10 ^ p := pow_add 10 L p
        have hA : A.length ≤ L :=
          natDigits_length_le_of_lt_pow L hL1 i2 hi2lt
        have hC : C.length ≤ p := by
          calc C.length = (trimEndMatches B '0').length := rfl
          _ ≤ B.length := trimEndMatches_length_le B '0'
          _ = p := fracDigits_length p r2
        have : (A ++ '.' :: C).length = A.length + 1 + C.length := by
          simp [List.length_append]
          omega
        rw [this]
        have : A.length + 1 + C.length ≤ m := by omega
        exact le_trans this (le_max_left _ _)

/-! ### Helper lemmas: pretty_size decomposition and nonnegativity -/

theorem natDigits_lt_ten {n : Nat} (h : n < 10) : natDigits n = [Nat.digitChar n] := by
  rw [natDigits_eq, if_pos h]

theorem toF64_nonneg (s : Nat) : 0 ≤ toF64 s := by
  unfold toF64 nearestF64
  split_ifs with h
  · exact le_refl 0
  · push_neg at h
    have hq : (0:ℚ) ≤ (s : ℚ) / (2:ℚ) ^ ((ratExp2 (s:ℚ)) - 52) := by
      apply div_nonneg (by positivity)
      positivity
    have hr := roundHalfEven_nonneg hq
    have : (0:ℚ) ≤ (roundHalfEven ((s:ℚ) / (2:ℚ) ^ ((ratExp2 (s:ℚ)) - 52)) : ℚ) := by
      exact_mod_cast hr
    exact mul_nonneg this (by positivity)

theorem scaledValue_nonneg (s : Nat) : 0 ≤ scaledValue s := by
  have h := toF64_nonneg s
  unfold scaledValue
  split_ifs
  · exact h
  · exact div_nonneg h (by norm_num)
  · exact div_nonneg (div_nonneg h (by norm_num)) (by norm_num)
  · exact div_nonneg (div_nonneg (div_nonneg h (by norm_num)) (by norm_num)) (by norm_num)
  · exact div_nonneg (div_nonneg (div_nonneg (div_nonneg h (by norm_num)) (by norm_num))
      (by norm_num)) (by norm_num)

theorem pretty_size_fixed (s w : Nat) (hw : 2 ≤ w) :
    pretty_size s true w =
      some (String.mk (max_width_float (scaledValue s) (w - 2) true ++ unitOf s)) := by
  simp [pretty_size, Nat.not_lt.mpr hw]

theorem pretty_size_fixed_small (s w : Nat) (hw : w < 2) : pretty_size s true w = none := by
  simp [pretty_size, hw]

theorem pretty_size_free (s w : Nat) :
    pretty_size s false w =
      some (String.mk (format_min_width 2 (defaultDisplay (scaledValue s)) ++ unitOf s)) := rfl

/-! ### Helper lemmas: decimal places of the no-trim path -/

theorem max_width_float_no_trim_decimals (a : ℚ)
    (hlt : (roundHalfEven (a * (10:ℚ) ^ 4)).toNat < 10 ^ 5) :
    decimalsAfterPoint (max_width_float a 4 false) = 2 := by
  simp only [max_width_float]
  rw [takeWhile_formatFixed_pos a 4 (by omega)]
  have h45 : (10:ℕ) ^ 5 = 10 * 10 ^ 4 := by norm_num
  have hi1 : (roundHalfEven (a * (10:ℚ) ^ 4)).toNat / 10 ^ 4 < 10 := by
    rw [Nat.div_lt_iff_lt_mul (by positivity), ← h45]
    exact hlt
  have hlen : (natDigits ((roundHalfEven (a * (10:ℚ) ^ 4)).toNat / 10 ^ 4)).length = 1 := by
    rw [natDigits_lt_ten hi1]
    rfl
  rw [hlen, if_neg (by omega), if_neg (by simp)]
  show decimalsAfterPoint (formatFixed a 2) = 2
  rw [formatFixed_pos a 2 (by omega)]
  set i2 := (roundHalfEven (a * (10:ℚ) ^ 2)).toNat / 10 ^ 2 with hi2def
  set r2 := (roundHalfEven (a * (10:ℚ) ^ 2)).toNat % 10 ^ 2 with hr2def
  unfold decimalsAfterPoint
  rw [if_pos (by simp)]
  rw [show (natDigits i2 ++ '.' :: fracDigits 2 r2).reverse =
      (fracDigits 2 r2).reverse ++ '.' :: (natDigits i2).reverse by
    rw [List.reverse_append, List.reverse_cons, List.append_assoc, List.singleton_append]]
  rw [takeWhile_all_append _ _ (by
      intro c hc
      rw [List.mem_reverse] at hc
      simpa using fracDigits_mem_ne_dot 2 r2 c hc) '.' (by simp) _]
  rw [List.length_reverse, fracDigits_length]

/-! ### Helper lemmas: output ordering -/

theorem enum_pairwise_lt (texts : List String) :
    texts.enum.Pairwise (fun a b => a.1 < b.1) := by
  have h := List.pairwise_lt_range texts.length
  rw [← List.enum_map_fst texts] at h
  exact List.pairwise_map.mp h

theorem sort_by_key_of_perm_enum (texts : List String) (pairs : List (Nat × String))
    (hperm : pairs.Perm texts.enum) : sort_by_key pairs = texts.enum := by
  haveI instTot : IsTotal (Nat × String) (fun a b => a.1 ≤ b.1) :=
    ⟨fun a b => Nat.le_total a.1 b.1⟩
  haveI instTrans : IsTrans (Nat × String) (fun a b => a.1 ≤ b.1) :=
    ⟨fun a b c h1 h2 => le_trans h1 h2⟩
  have hsorted : (sort_by_key pairs).Sorted (fun a b => a.1 ≤ b.1) :=
    List.sorted_insertionSort _ _
  have hperm2 : (sort_by_key pairs).Perm texts.enum :=
    (List.perm_insertionSort _ pairs).trans hperm
  have hnodupkeys : ((sort_by_key pairs).map Prod.fst).Nodup := by
    have h1 : (texts.enum.map Prod.fst).Nodup := by
      rw [List.enum_map_fst]
      exact List.nodup_range _
    exact ((hperm2.map Prod.fst).nodup_iff).mpr h1
  have hpairwise_ne : (sort_by_key pairs).Pairwise (fun a b => a.1 ≠ b.1) :=
    List.pairwise_map.mp hnodupkeys
  have hsorted_lt : (sort_by_key pairs).Pairwise (fun a b => a.1 < b.1) := by
    have hand := hsorted.and hpairwise_ne
    exact hand.imp (fun {a b} h => lt_of_le_of_ne h.1 h.2)
  have henum_lt : texts.enum.Pairwise (fun a b => a.1 < b.1) := enum_pairwise_lt texts
  haveI : IsAntisymm (Nat × String) (fun a b => a.1 < b.1) :=
    ⟨fun a b h1 h2 => absurd h2 (not_lt.mpr (le_of_lt h1))⟩
  exact List.eq_of_perm_of_sorted hperm2 hsorted_lt henum_lt

theorem parse_args_metric_flags :
    ∀ (fl : List MetricFlag) (cfg : Config) (acc : List Op),
      parse_args (fl.map flag_arg) cfg acc = some (cfg, acc ++ fl.map flag_op) := by
  intro fl
  induction fl with
  | nil =>
    intro cfg acc
    simp [parse_args]
  | cons f fl ih =>
    intro cfg acc
    cases f
    · show parse_args ("--net" :: fl.map flag_arg) cfg acc = _
      rw [show parse_args ("--net" :: fl.map flag_arg) cfg acc =
          parse_args (fl.map flag_arg) cfg (acc ++ [network_bandwidth]) from rfl, ih]
      simp [flag_op]
    · show parse_args ("--cpu" :: fl.map flag_arg) cfg acc = _
      rw [show parse_args ("--cpu" :: fl.map flag_arg) cfg acc =
          parse_args (fl.map flag_arg) cfg (acc ++ [cpu]) from rfl, ih]
      simp [flag_op]
    · show parse_args ("--mem" :: fl.map flag_arg) cfg acc = _
      rw [show parse_args ("--mem" :: fl.map flag_arg) cfg acc =
          parse_args (fl.map flag_arg) cfg (acc ++ [mem]) from rfl, ih]
      simp [flag_op]

theorem main_run_metric_flags (flags : List MetricFlag) (t : Telemetry)
    (texts : List String)
    (h : sequenceOptions ((flags.map flag_op).map (fun op => op t Config.default)) =
      some texts) :
    main_run t (flags.map flag_arg) = some [String.intercalate " " texts] := by
  simp only [main_run, parse_args_metric_flags flags Config.default [], List.nil_append,
    Option.bind_eq_bind, Option.some_bind, h]
  rw [sort_by_key_of_perm_enum texts texts.enum (List.Perm.refl _), List.enum_map_snd]
  rfl

/-! ### Helper lemmas: renderer panics propagate -/

theorem network_bandwidth_interval_zero (t : Telemetry) (cfg : Config)
    (h : cfg.interval = 0) : network_bandwidth t cfg = none := by
  simp [network_bandwidth, checked_div, h]

theorem sequenceOptions_none_of_mem :
    ∀ (l : List (Option String)), none ∈ l → sequenceOptions l = none := by
  intro l
  induction l with
  | nil => intro h; simp at h
  | cons a l ih =>
    intro h
    rcases List.mem_cons.mp h with h1 | h1
    · rw [← h1]
      rfl
    · cases a with
      | none => rfl
      | some s =>
        show (sequenceOptions l).map _ = none
        rw [ih h1]
        rfl

theorem main_run_net_interval_zero (t : Telemetry) (args : List String)
    (cfg : Config) (ops : List Op)
    (hparse : parse_args args Config.default [] = some (cfg, ops))
    (hmem : network_bandwidth ∈ ops) (hzero : cfg.interval = 0) :
    main_run t args = none := by
  simp only [main_run, hparse, Option.bind_eq_bind, Option.some_bind]
  rw [sequenceOptions_none_of_mem]
  · rfl
  · rw [List.mem_map]
    exact ⟨network_bandwidth, hmem, network_bandwidth_interval_zero t cfg hzero⟩

/-! ### Claim C1 — width contract of the fixed-width formatter -/

/-- Claim C1, counterexample to the claim as stated: at width budget
`b = 2` (which the claim includes, `b ≥ 2`) and value 999, the numeric
portion of `pretty_size(999, true, 2)` is the integer fallback `"999"`,
whose length 3 exceeds the budget 2. -/
theorem c1_width_contract_counterexample :
    pretty_size 999 true 2 =
      some (String.mk (max_width_float (scaledValue 999) 0 true ++ unitOf 999)) ∧
    (max_width_float (scaledValue 999) 0 true).length = 3 ∧
    ¬((max_width_float (scaledValue 999) 0 true).length ≤ 2) := by
  with_unfolding_all decide

/-- Claim C1 as amended: for every byte value `v` and width budget
`b ≥ 2`, the numeric portion of `pretty_size(v, true, b)` (namely
`max_width_float` of the scaled value at budget `b - 2`) has length at
most `max b d`, where `d` is the length of the scaled value rounded to an
integer — i.e. the budget can be exceeded only through the integer-only
fallback, whose output is exactly the rounded integer. -/
theorem c1_width_contract_amended (s b : Nat) (hb : 2 ≤ b) :
    pretty_size s true b =
      some (String.mk (max_width_float (scaledValue s) (b - 2) true ++ unitOf s)) ∧
    (max_width_float (scaledValue s) (b - 2) true).length ≤
      max b (formatFixed (scaledValue s) 0).length := by
  refine ⟨pretty_size_fixed s b hb, ?_⟩
  refine le_trans (max_width_float_true_length (scaledValue s) (scaledValue_nonneg s) (b - 2)) ?_
  exact max_le_max (by omega) le_rfl

/-- Claim C1 witness: the amended width contract instantiated at value 999
and budget 5. -/
theorem c1_width_contract_witness :
    pretty_size 999 true 5 =
      some (String.mk (max_width_float (scaledValue 999) (5 - 2) true ++ unitOf 999)) ∧
    (max_width_float (scaledValue 999) (5 - 2) true).length ≤
      max 5 (formatFixed (scaledValue 999) 0).length :=
  c1_width_contract_amended 999 5 (by norm_num)

/-! ### Claim C2 — unit selection boundaries -/

/-- Claim C2: `pretty_size` selects `B` iff `v < 1000`, `KB` iff
`1000 ≤ v < 1000·1024`, `MB`, `GB`, `TB` at the analogous thresholds (a
boundary value selects the higher unit), the selected unit is the suffix
of the output after the numeric portion, and in particular 1024 renders as
`"1KB"`, not `"1024B"`. -/
theorem c2_unit_boundaries (s : Nat) :
    ((unitOf s = ['B'] ↔ s < 1000) ∧
     (unitOf s = ['K', 'B'] ↔ 1000 ≤ s ∧ s < 1000 * 1024) ∧
     (unitOf s = ['M', 'B'] ↔ 1000 * 1024 ≤ s ∧ s < 1000 * 1024 * 1024) ∧
     (unitOf s = ['G', 'B'] ↔ 1000 * 1024 * 1024 ≤ s ∧ s < 1000 * 1024 * 1024 * 1024) ∧
     (unitOf s = ['T', 'B'] ↔ 1000 * 1024 * 1024 * 1024 ≤ s)) ∧
    (∀ w, 2 ≤ w → pretty_size s true w =
      some (String.mk (max_width_float (scaledValue s) (w - 2) true ++ unitOf s))) ∧
    pretty_size 1024 true 7 = some "1KB" := by
  refine ⟨?_, fun w hw => pretty_size_fixed s w hw, by with_unfolding_all decide⟩
  unfold unitOf
  split_ifs with h1 h2 h3 h4 <;>
    refine ⟨?_, ?_, ?_, ?_, ?_⟩ <;>
      first
        | exact iff_of_true rfl (by omega)
        | exact iff_of_false (by decide) (by omega)

/-- Claim C2 witness: the boundary behaviour instantiated at 1024, which
lies beyond the 1000 threshold and therefore takes the `KB` unit. -/
theorem c2_unit_boundaries_witness :
    (unitOf 1024 = ['K', 'B'] ↔ 1000 ≤ 1024 ∧ 1024 < 1000 * 1024) ∧
    pretty_size 1024 true 7 =
      some (String.mk (max_width_float (scaledValue 1024) (7 - 2) true ++ unitOf 1024)) ∧
    pretty_size 1024 true 7 = some "1KB" :=
  ⟨(c2_unit_boundaries 1024).1.2.1, (c2_unit_boundaries 1024).2.1 7 (by norm_num),
    (c2_unit_boundaries 1024).2.2⟩

/-! ### Claim C3 — concrete formatter scenarios at width 7 -/

/-- Claim C3: the four concrete fixed-width scenarios at budget 7 from the
specification (and the crate's own unit test). -/
theorem c3_concrete_scenarios :
    pretty_size 999 true 7 = some "999B" ∧
    pretty_size 1000 true 7 = some "0.977KB" ∧
    pretty_size 1024 true 7 = some "1KB" ∧
    pretty_size 1073741824 true 7 = some "1GB" := by
  with_unfolding_all decide

/-! ### Claim C4 — degradation at tiny width budgets -/

/-- Claim C4, counterexample to the claim as stated: at width budgets 0
and 1 (which the claim says must not panic), `pretty_size` panics — the
`usize` subtraction `max_width - 2` underflows before the integer-only
degradation check can fire (modelled by the `none` result). -/
theorem c4_small_budget_counterexample :
    pretty_size 999 true 1 = none ∧ pretty_size 999 true 0 = none := by
  with_unfolding_all decide

/-- Claim C4 as amended: `pretty_size(v, true, budget)` is panic-free
exactly for budgets `≥ 2` (degrading to the integer-only rendering there);
budgets 0 and 1 underflow the `usize` subtraction `max_width - 2` and
panic. -/
theorem c4_no_panic_amended (s w : Nat) : (pretty_size s true w).isSome ↔ 2 ≤ w := by
  rcases Nat.lt_or_ge w 2 with h | h
  · rw [pretty_size_fixed_small s w h]
    simp
    omega
  · rw [pretty_size_fixed s w h]
    simp [h]

/-! ### Claim C5 — counter wraparound tolerance -/

/-- Claim C5: for `u64` counters `c1 > c2` (the counter wrapped during the
interval), the rate sampler's delta `c2.wrapping_sub(c1)` equals
`(u64::MAX - c1) + c2 + 1`, which is subtraction modulo `2 ^ 64`, and is
always a defined value below `2 ^ 64` (never negative, never a panic). -/
theorem c5_wraparound_tolerance (c1 c2 : Nat) (h1 : c1 < 2 ^ 64) (h2 : c2 < 2 ^ 64)
    (hlt : c2 < c1) :
    wrapping_sub c2 c1 = (2 ^ 64 - 1 - c1) + c2 + 1 ∧
    wrapping_sub c2 c1 = (c2 + (2 ^ 64 - c1)) % 2 ^ 64 ∧
    wrapping_sub c2 c1 < 2 ^ 64 := by
  unfold wrapping_sub
  have hp : (2:ℕ) ^ 64 = 18446744073709551616 := by norm_num
  rw [hp] at h1 h2 ⊢
  omega

/-- Claim C5 witness: the wraparound delta at `c1 = u64::MAX`, `c2 = 5`,
where the counter wrapped and the delta is the small value 6. -/
theorem c5_wraparound_tolerance_witness :
    wrapping_sub 5 (2 ^ 64 - 1) = (2 ^ 64 - 1 - (2 ^ 64 - 1)) + 5 + 1 ∧
    wrapping_sub 5 (2 ^ 64 - 1) = (5 + (2 ^ 64 - (2 ^ 64 - 1))) % 2 ^ 64 ∧
    wrapping_sub 5 (2 ^ 64 - 1) < 2 ^ 64 :=
  c5_wraparound_tolerance (2 ^ 64 - 1) 5 (by norm_num) (by norm_num) (by norm_num)

/-! ### Claim C6 — deterministic output ordering -/

/-- Claim C6: sorting the collected `(order_index, text)` pairs by index
restores request order from any permutation (any thread completion order),
and for every subset and ordering of the metric flags the program prints
the fragments in command-line order joined by single spaces. -/
theorem c6_output_ordering :
    (∀ (texts : List String) (pairs : List (Nat × String)),
       pairs.Perm texts.enum → (sort_by_key pairs).map Prod.snd = texts) ∧
    (∀ (flags : List MetricFlag) (t : Telemetry) (texts : List String),
       sequenceOptions ((flags.map flag_op).map (fun op => op t Config.default)) =
         some texts →
       main_run t (flags.map flag_arg) = some [String.intercalate " " texts]) := by
  constructor
  · intro texts pairs h
    rw [sort_by_key_of_perm_enum texts pairs h, List.enum_map_snd]
  · exact main_run_metric_flags

/-- Claim C6 witness: a permuted pair list is restored to request order,
and a concrete one-flag invocation prints that renderer's fragment. -/
theorem c6_output_ordering_witness :
    (sort_by_key [(1, "y"), (0, "x")]).map Prod.snd = ["x", "y"] ∧
    main_run exampleTelemetry ["--cpu"] = some ["CPU: 0.00"] := by
  constructor
  · exact c6_output_ordering.1 ["x", "y"] [(1, "y"), (0, "x")] (by decide)
  · exact c6_output_ordering.2 [MetricFlag.cpu] exampleTelemetry ["CPU: 0.00"]
      (by with_unfolding_all decide)

/-! ### Claim C7 — CPU percentage formatting -/

/-- Claim C7, counterexample to the fixed-two-decimal part: a CPU
busy-fraction average of 50 renders as `"CPU: 50.0"` — one digit after the
decimal point, not two. -/
theorem c7_cpu_two_decimals_counterexample :
    cpu exampleTelemetryCpu50 Config.default = some "CPU: 50.0" ∧
    decimalsAfterPoint (max_width_float 50 4 false) = 1 := by
  with_unfolding_all decide

/-- Claim C7 as amended: the CPU renderer formats the average through the
same width-fitting subroutine as byte formatting with trailing-zero
trimming disabled (budget 4), and the numeric string keeps the two-decimal
form exactly when the average rounds below 10 (a single-digit integer
part); larger averages get one decimal or none. -/
theorem c7_cpu_formatting_amended :
    (∀ (t : Telemetry) (cfg : Config),
       cpu t cfg = some ((if cfg.with_icons then " " else "CPU: ") ++
         padLeftWidth 4 (String.mk (max_width_float t.cpu_usage_avg 4 false)))) ∧
    (∀ a : ℚ, (roundHalfEven (a * (10:ℚ) ^ 4)).toNat < 10 ^ 5 →
       decimalsAfterPoint (max_width_float a 4 false) = 2) := by
  constructor
  · intro t cfg
    with_unfolding_all rfl
  · intro a h
    exact max_width_float_no_trim_decimals a h

/-- Claim C7 witness: the renderer equation at a concrete telemetry, and
the two-decimal form at the average 5 (which rounds below 10). -/
theorem c7_cpu_formatting_witness :
    cpu exampleTelemetry Config.default = some ((if Config.default.with_icons then " "
      else "CPU: ") ++
      padLeftWidth 4 (String.mk (max_width_float exampleTelemetry.cpu_usage_avg 4 false))) ∧
    decimalsAfterPoint (max_width_float 5 4 false) = 2 :=
  ⟨c7_cpu_formatting_amended.1 exampleTelemetry Config.default,
    c7_cpu_formatting_amended.2 5 (by with_unfolding_all decide)⟩

/-! ### Claim C8 — non-fixed-width rendering -/

/-- Claim C8, counterexample to the fixed-2-decimal-place part: with
fixed-width off, 1000 bytes renders as `"0.9765625KB"` (default shortest
round-trip float display), not the 2-decimal `"0.98KB"` the claim
prescribes. -/
theorem c8_two_decimals_counterexample :
    pretty_size 1000 false 6 = some "0.9765625KB" ∧
    String.mk (formatFixed (scaledValue 1000) 2 ++ unitOf 1000) = "0.98KB" ∧
    pretty_size 1000 false 6 ≠ some "0.98KB" := by
  with_unfolding_all decide

/-- Claim C8 as amended: with `fixed_width` off, `pretty_size` renders the
unit-scaled value with Rust's default float display (shortest
round-tripping decimal) at minimum field width 2 — `format!("{:2}", v)`
takes `2` as a width, not a precision — appends the unit suffix, and
ignores the width budget entirely (no clamping). -/
theorem c8_free_format_amended (s w w' : Nat) :
    pretty_size s false w =
      some (String.mk (format_min_width 2 (defaultDisplay (scaledValue s)) ++ unitOf s)) ∧
    pretty_size s false w = pretty_size s false w' :=
  ⟨rfl, rfl⟩

/-! ### Claim C9 — behaviour with zero metrics requested -/

/-- Claim C9, counterexample: with zero metric flags the program still
prints — `main_run` produces exactly one line, the empty string (the
unconditional `println!` of the empty join), rather than no output. -/
theorem c9_empty_line_counterexample :
    main_run exampleTelemetry [] = some [""] ∧ ([""] : List String).length = 1 := by
  with_unfolding_all decide

/-- Claim C9 as amended: whenever argument parsing succeeds with zero
metrics selected, the program prints exactly one line and that line is
empty. -/
theorem c9_empty_line_amended (t : Telemetry) (args : List String) (cfg : Config)
    (h : parse_args args Config.default [] = some (cfg, [])) :
    main_run t args = some [""] := by
  unfold main_run
  rw [h]
  rfl

/-- Claim C9 witness: the amended statement at the empty command line. -/
theorem c9_empty_line_witness : main_run exampleTelemetry [] = some [""] :=
  c9_empty_line_amended exampleTelemetry [] Config.default rfl

/-! ### Claim C10 — interval 0 is accepted and divides by zero -/

/-- Claim C10: the CLI accepts an interval of 0 (any parsed `u64` value is
stored unchecked), and with the network metric selected the renderer then
divides the wrapped byte deltas by `interval.as_secs() = 0` and panics;
the panic propagates through the thread join and aborts the whole
invocation, for every command line whose parse yields interval 0 with
`--net` requested. -/
theorem c10_interval_zero_panic :
    (parse_args ["--net", "--interval", "0"] Config.default [] =
      some (⟨false, 0, true⟩, [network_bandwidth])) ∧
    (∀ (t : Telemetry) (cfg : Config), cfg.interval = 0 →
      network_bandwidth t cfg = none) ∧
    (∀ (t : Telemetry) (args : List String) (cfg : Config) (ops : List Op),
      parse_args args Config.default [] = some (cfg, ops) →
      network_bandwidth ∈ ops → cfg.interval = 0 → main_run t args = none) := by
  refine ⟨?_, network_bandwidth_interval_zero, main_run_net_interval_zero⟩
  rfl

/-- Claim C10 witness: the degenerate command line `--net --interval 0`
panics, at concrete telemetry. -/
theorem c10_interval_zero_panic_witness :
    network_bandwidth exampleTelemetry ⟨false, 0, true⟩ = none ∧
    main_run exampleTelemetry ["--net", "--interval", "0"] = none :=
  ⟨c10_interval_zero_panic.2.1 exampleTelemetry ⟨false, 0, true⟩ rfl,
    c10_interval_zero_panic.2.2 exampleTelemetry ["--net", "--interval", "0"]
      ⟨false, 0, true⟩ [network_bandwidth] (by rfl) (by simp) rfl⟩

end TmuxWidget
